import Mathlib

/-!
Verification of the points-to / dataflow / CFG graph engine (pytype/pytd/cfg.py).

The Python source is shallowly embedded: every Python object lives in an arena
inside `Program` and is referred to by its numeric index (modelling Python
object identity).  Python sets of ids are modelled as sorted duplicate-free
lists of naturals (`NSet`); all operations below build only such canonical
lists, so list equality coincides with set equality, matching Python's
content-based hashing of frozensets and of solver states.  Unbounded Python
`while` loops are modelled with an explicit fuel parameter and return
`Option` results (`none` = the loop was cut off, or a Python runtime error
such as the failing unpack in `State._AddSources` occurred).  Iteration order
over Python sets (which is unspecified) is determinized to ascending id order.
Logging, metrics and change-listener callbacks are external effects and are
not modelled.
-/

set_option linter.unusedVariables false

namespace CfgModel

/-! ## Sets of naturals as sorted duplicate-free lists -/

/-- Canonical finite sets of ids: sorted duplicate-free lists. -/
abbrev NSet := List Nat

/-- Ordered duplicate-free insert. -/
def nsInsert (x : Nat) : NSet → NSet
  | [] => [x]
  | y :: ys => if x < y then x :: y :: ys else if x = y then y :: ys else y :: nsInsert x ys

/-- Set union (right-biased fold of inserts). -/
def nsUnion (a b : NSet) : NSet := a.foldr nsInsert b

/-- Remove an element (`set.discard` / `set.remove`). -/
def nsErase (s : NSet) (x : Nat) : NSet := s.filter (fun y => y ≠ x)

/-- Canonicalize an arbitrary list into an `NSet` (models `set(...)`). -/
def nsOf (l : List Nat) : NSet := l.foldr nsInsert []

/-- Set difference (models `set - set`). -/
def nsDiff (a b : NSet) : NSet := a.filter (fun y => ¬ (y ∈ b))

/-! ## Data model

Arenas of nodes, variables and bindings live in `Program`; ids are indices.
Field and operation names follow the Python source. -/

/-- An origin: a CFG node together with the alternative source sets that could
have produced the binding there.  `source_sets` is a Python `set` of
`SourceSet` (frozensets of bindings): modelled as an insertion-ordered
duplicate-free list of canonical `NSet`s. -/
structure Origin where
  where_ : Nat
  source_sets : List NSet
deriving DecidableEq

/-- A binding of one variable to one (opaque, identity-compared) payload. -/
structure Binding where
  varId : Nat
  data : Nat
  origins : List Origin
deriving DecidableEq

/-- A CFG node.  `bindings` is the set of bindings assigned here,
`reachable_subset` the cached set of backward-reachable nodes (incl. self). -/
structure CFGNode where
  incoming : NSet
  outgoing : NSet
  bindings : NSet
  reachable_subset : NSet
  condition : Option Nat
deriving DecidableEq

/-- A variable: ordered binding list plus the per-node reverse index
`_cfgnode_to_bindings` (node id to set of bindings assigned there). -/
structure Variable where
  bindings : List Nat
  cfgnode_to_bindings : List (Nat × NSet)
deriving DecidableEq

/-- A solver state: current CFG position and the set of goal bindings.
Hash/equality by content, as the Python `State` used as memo key. -/
structure State where
  pos : Nat
  goals : NSet
deriving DecidableEq

/-- The solver's mutable caches: the memo table `_solved_states` and the path
finder's `_solved_find_queries`.  Both are dictionaries, modelled as
association lists where the most recent entry for a key shadows older ones. -/
structure Solver where
  cache : List (State × Bool)
  pathCache : List ((Nat × Nat × NSet) × (Bool × Option (List Nat)))
deriving DecidableEq

/-- The program: arena of nodes, variables and bindings, the sentinel
`default_data` payload, and the lazily created solver handle. -/
structure Program where
  nodes : List CFGNode
  vars : List Variable
  binds : List Binding
  default_data : Nat
  solver : Option Solver
deriving DecidableEq

def emptyNode : CFGNode := ⟨[], [], [], [], none⟩
def emptyVariable : Variable := ⟨[], []⟩
def emptyBinding : Binding := ⟨0, 0, []⟩
def emptySolver : Solver := ⟨[], []⟩

/-- The empty program with a chosen `default_data` payload. -/
def emptyProgram (dd : Nat) : Program := ⟨[], [], [], dd, none⟩

def getNode (p : Program) (i : Nat) : CFGNode := p.nodes.getD i emptyNode
def getVar (p : Program) (i : Nat) : Variable := p.vars.getD i emptyVariable
def getBind (p : Program) (i : Nat) : Binding := p.binds.getD i emptyBinding

def setNode (p : Program) (i : Nat) (n : CFGNode) : Program :=
  { p with nodes := p.nodes.set i n }
def setVar (p : Program) (i : Nat) (v : Variable) : Program :=
  { p with vars := p.vars.set i v }
def setBind (p : Program) (i : Nat) (b : Binding) : Program :=
  { p with binds := p.binds.set i b }

/-- Largest number of bindings per variable before collapsing onto
`default_data`. -/
def MAX_VAR_SIZE : Nat := 64

/-! ## Program / CFGNode operations -/

/-- `Program.InvalidateSolver`. -/
def InvalidateSolver (p : Program) : Program := { p with solver := none }

/-- `Program.CreateSolver` followed by reading `program.solver`: returns the
existing solver if there is one, otherwise a fresh one with empty caches. -/
def CreateSolver (p : Program) : Solver := p.solver.getD emptySolver

/-- `Program.NewCFGNode`: invalidates the solver and appends a fresh node
whose `reachable_subset` is the singleton of itself. -/
def NewCFGNode (p : Program) (condition : Option Nat) : Program × Nat :=
  let p1 := InvalidateSolver p
  ({ p1 with nodes := p1.nodes ++ [⟨[], [], [], [p1.nodes.length], condition⟩] },
   p.nodes.length)

/-- `CFGNode.ConnectTo`: invalidates the solver, registers the edge on both
endpoints and unions the source's `reachable_subset` into the target's. -/
def ConnectTo (p : Program) (u v : Nat) : Program :=
  let p0 := InvalidateSolver p
  let nu := getNode p0 u
  let p1 := setNode p0 u { nu with outgoing := nsInsert v nu.outgoing }
  let nv := getNode p1 v
  setNode p1 v { nv with incoming := nsInsert u nv.incoming,
                         reachable_subset :=
                           nsUnion (getNode p1 u).reachable_subset nv.reachable_subset }

/-- `Program.NewVariable` without initial bindings. -/
def NewVariable (p : Program) : Program × Nat :=
  ({ p with vars := p.vars ++ [emptyVariable] }, p.vars.length)

/-- Does the variable already have a binding for this payload identity
(membership in `_data_id_to_binding`)? -/
def payloadSeen (p : Program) (vid : Nat) (d : Nat) : Bool :=
  (getVar p vid).bindings.any (fun b => (getBind p b).data = d)

/-- `Variable._FindOrAddBinding`: collapse onto `default_data` at the size
cap, return the existing binding for the payload if there is one, else
invalidate the solver and append a fresh binding (callbacks and metrics are
external and not modelled). -/
def FindOrAddBinding (p : Program) (vid : Nat) (d : Nat) : Program × Nat :=
  let v := getVar p vid
  let d1 := if MAX_VAR_SIZE - 1 ≤ v.bindings.length ∧ ¬ payloadSeen p vid d then
              p.default_data
            else d
  match v.bindings.find? (fun b => (getBind p b).data = d1) with
  | some b => (p, b)
  | none =>
    let p0 := InvalidateSolver p
    let bid := p0.binds.length
    let p1 := { p0 with binds := p0.binds ++ [⟨vid, d1, []⟩] }
    (setVar p1 vid { v with bindings := v.bindings ++ [bid] }, bid)

/-- Association-list lookup for `_cfgnode_to_bindings`. -/
def lookupNodeMap (m : List (Nat × NSet)) (k : Nat) : Option NSet :=
  (m.find? (fun e => e.1 = k)).map (·.2)

/-- Add a binding under a node key of `_cfgnode_to_bindings` (defaultdict
insert). -/
def mapInsertBind (m : List (Nat × NSet)) (k b : Nat) : List (Nat × NSet) :=
  match m with
  | [] => [(k, [b])]
  | (k2, s) :: rest =>
    if k = k2 then (k2, nsInsert b s) :: rest else (k2, s) :: mapInsertBind rest k b

/-- `Variable.nodes`: the key set of `_cfgnode_to_bindings`. -/
def varNodes (v : Variable) : NSet := nsOf (v.cfgnode_to_bindings.map (·.1))

/-- `Binding.FindOrigin`: the origin of this binding at a node, if any
(`_cfgnode_to_origin` holds at most one origin per node). -/
def FindOrigin (p : Program) (b : Nat) (node : Nat) : Option Origin :=
  (getBind p b).origins.find? (fun o => o.where_ = node)

/-- `Binding.AddOrigin`: invalidate the solver, find-or-create the origin at
`w`, add the frozen source set to its alternatives; on first creation
register the binding on the variable's per-node index and on the node. -/
def AddOrigin (p : Program) (b : Nat) (w : Nat) (source_set : List Nat) : Program :=
  let p0 := InvalidateSolver p
  let bd := getBind p0 b
  let ssC := nsOf source_set
  match bd.origins.find? (fun o => o.where_ = w) with
  | some _ =>
    let newOrigins := bd.origins.map (fun o =>
      if o.where_ = w then
        (if ssC ∈ o.source_sets then o
         else { o with source_sets := o.source_sets ++ [ssC] })
      else o)
    setBind p0 b { bd with origins := newOrigins }
  | none =>
    let p1 := setBind p0 b { bd with origins := bd.origins ++ [⟨w, [ssC]⟩] }
    let v := getVar p1 bd.varId
    let p2 := setVar p1 bd.varId
      { v with cfgnode_to_bindings := mapInsertBind v.cfgnode_to_bindings w b }
    let nd := getNode p2 w
    setNode p2 w { nd with bindings := nsInsert b nd.bindings }

/-- `Variable.AddBinding`: find-or-add the binding; when a source set and a
CFG node are supplied, also add that origin.  (In Python the arguments come
separately with an assert that both are present; the pair models a valid
call, and passing a node makes `source_set or where` truthy, so the origin
is added even for an empty source set.) -/
def AddBinding (p : Program) (vid : Nat) (d : Nat) (orig : Option (List Nat × Nat)) :
    Program × Nat :=
  let r := FindOrAddBinding p vid d
  match orig with
  | some (ss, w) => (AddOrigin r.1 r.2 w ss, r.2)
  | none => r

/-- One iteration of the `for binding in variable.bindings` loop of
`Variable.PasteVariable`: the copy is find-or-added; if all of the source
binding's origins sit at `w`, its source sets are copied verbatim, else a
single origin at `w` whose source set consists of the source binding is
added. -/
def pasteBinding (dst w : Nat) (pAcc : Program) (b : Nat) : Program :=
  let bd := getBind pAcc b
  let r := FindOrAddBinding pAcc dst bd.data
  if bd.origins.all (fun o => o.where_ = w) then
    bd.origins.foldl (fun p2 o =>
      o.source_sets.foldl (fun p3 ss => AddOrigin p3 r.2 o.where_ ss) p2) r.1
  else
    AddOrigin r.1 r.2 w [b]

/-- `Variable.PasteVariable`: adds all the bindings of `src` to `dst`. -/
def PasteVariable (p : Program) (dst src : Nat) (w : Nat) : Program :=
  (getVar p src).bindings.foldl (pasteBinding dst w) p

/-- `Program.CreateSolver` as a state change on the program: construct the
solver if it is absent. -/
def CreateSolverP (p : Program) : Program := { p with solver := some (CreateSolver p) }

/-! ## Variable.Bindings: CFG-only visibility filter -/

/-- The backward walk of `Variable.Bindings`: pop a node, mark it seen; if the
variable is assigned there, collect those bindings and do not expand the
node, else push its unseen predecessors; stop early once every binding has
been collected. -/
def bindingsLoop (p : Program) (v : Variable) (numBindings : Nat) :
    Nat → List Nat → NSet → NSet → Option NSet
  | fuel, stack, seen, result =>
    match stack with
    | [] => some result
    | node :: rest =>
      match fuel with
      | 0 => none
      | fuel' + 1 =>
        if result.length = numBindings then some result
        else
          let seen1 := nsInsert node seen
          match lookupNodeMap v.cfgnode_to_bindings node with
          | some bs =>
            bindingsLoop p v numBindings fuel' rest seen1 (nsUnion bs result)
          | none =>
            bindingsLoop p v numBindings fuel'
              (nsDiff (getNode p node).incoming seen1 ++ rest) seen1 result

/-- `Variable.Bindings(viewpoint)`: fast path returns the full binding list
(when there is no viewpoint, or there is a single assignment node or single
binding and an assignment node is an ancestor of the viewpoint); otherwise
run the backward walk.  The Python fast path returns the binding list and the
walk returns a set; both are rendered here as a canonical id list. -/
def Bindings (p : Program) (vid : Nat) (viewpoint : Option Nat) (fuel : Nat) :
    Option (List Nat) :=
  let v := getVar p vid
  let num := v.bindings.length
  match viewpoint with
  | none => some v.bindings
  | some vp =>
    if (v.cfgnode_to_bindings.length = 1 ∨ num = 1) ∧
       (v.cfgnode_to_bindings.any (fun e => e.1 ∈ (getNode p vp).reachable_subset)) then
      some v.bindings
    else bindingsLoop p v num fuel [vp] [] []

/-! ## State: goals and trivial fulfillment -/

/-- `State._AddSources`: if the goal has an origin at the current position
with at most one source set, the goal is trivially fulfilled and its sources
are reported as new goals.  The Python line `source_set, = origin.source_sets`
unpacks a single element and raises on an origin with zero source sets; that
error is modelled as `none`. -/
def AddSources (p : Program) (pos goal : Nat) : Option (Bool × NSet) :=
  match FindOrigin p goal pos with
  | none => some (false, [])
  | some o =>
    if o.source_sets.length ≤ 1 then
      match o.source_sets with
      | [] => none
      | ss :: _ => some (true, ss)
    else some (false, [])

/-- First pass of `State.RemoveFinishedGoals`: collect the new goals and the
goals to remove from the state's own goal set. -/
def rfgFirst (p : Program) (pos : Nat) : List Nat → Option (NSet × NSet)
  | [] => some ([], [])
  | g :: gs =>
    match AddSources p pos g with
    | none => none
    | some (true, src) =>
      match rfgFirst p pos gs with
      | none => none
      | some (ng, rm) => some (nsUnion src ng, nsInsert g rm)
    | some (false, _) => rfgFirst p pos gs

/-- The cascade loop of `State.RemoveFinishedGoals`: pop new goals (lowest id
first), skip already-seen ones, and either discharge them further or add
them to the state's goals. -/
def rfgLoop (p : Program) (pos : Nat) :
    Nat → NSet → NSet → NSet → NSet → Option (NSet × NSet)
  | fuel, ng, seen, cur, rm =>
    match ng with
    | [] => some (cur, rm)
    | g :: ng' =>
      match fuel with
      | 0 => none
      | fuel' + 1 =>
        if g ∈ seen then rfgLoop p pos fuel' ng' seen cur rm
        else
          match AddSources p pos g with
          | none => none
          | some (true, src) =>
            rfgLoop p pos fuel' (nsUnion src ng') (nsInsert g seen) cur (nsInsert g rm)
          | some (false, _) =>
            rfgLoop p pos fuel' ng' (nsInsert g seen) (nsInsert g cur) rm

/-- `State.RemoveFinishedGoals`: remove all goals trivially fulfilled at the
current node, cascading through their sources; returns the updated state and
the set of removed goals. -/
def RemoveFinishedGoals (p : Program) (fuel : Nat) (s : State) : Option (State × NSet) :=
  match rfgFirst p s.pos s.goals with
  | none => none
  | some (ng0, rm0) =>
    match rfgLoop p s.pos fuel ng0 s.goals s.goals rm0 with
    | none => none
    | some (cur, rm) => some (⟨s.pos, rm.foldl nsErase cur⟩, rm)

/-! ## Concrete scenario S1: linear CFG n0 -> n1 -> n2 -/

/-- Scenario S1: three nodes in a line, one variable with binding `a` (id 0)
at n0 and binding `b` (id 1) at n1, each with one empty source set. -/
def progS1 : Program :=
  let r0 := NewCFGNode (emptyProgram 100) none
  let r1 := NewCFGNode r0.1 none
  let r2 := NewCFGNode r1.1 none
  let p3 := ConnectTo r2.1 0 1
  let p4 := ConnectTo p3 1 2
  let rv := NewVariable p4
  let ra := AddBinding rv.1 rv.2 1 (some ([], 0))
  let rb := AddBinding ra.1 rv.2 2 (some ([], 1))
  rb.1

/-! ## The path finder -/

/-- `_PathFinder._FindPathToNode`: cheap backward DFS that ignores
conditions; `start` and `finish` are never treated as blocked (the check on
`finish` comes before the blocked check, and `start` enters the stack
unconditionally). -/
def FindPathToNode (p : Program) (finish : Nat) (blocked : NSet) :
    Nat → List Nat → NSet → Option Bool
  | fuel, stack, seen =>
    match stack with
    | [] => some false
    | node :: rest =>
      match fuel with
      | 0 => none
      | fuel' + 1 =>
        if node = finish then some true
        else if node ∈ seen ∨ node ∈ blocked then
          FindPathToNode p finish blocked fuel' rest seen
        else
          FindPathToNode p finish blocked fuel'
            ((getNode p node).incoming ++ rest) (nsInsert node seen)

/-- Working state of `_FindNodeBackwardsImpl`: the explicit DFS stack (top
first, each node paired with the rest of its incoming iterator), the seen
set, `_node_to_finish_set`, `_solution_set` and `_one_path`. -/
structure PFState where
  path : List (Nat × List Nat)
  seen : NSet
  n2f : List (Nat × Option NSet)
  sol : Option NSet
  one : Option (List Nat)
deriving DecidableEq

/-- The Python `path` stack as a node list, bottom (start) to top. -/
def pathNodesOf (path : List (Nat × List Nat)) : List Nat := (path.map (·.1)).reverse

def n2fLookup (m : List (Nat × Option NSet)) (k : Nat) : Option (Option NSet) :=
  (m.find? (fun e => e.1 = k)).map (·.2)

/-- `_PathFinder._UpdateSolutionSet`: initialize the solution set with the
condition-bearing nodes of the first path, thereafter intersect with the
nodes of each further path. -/
def UpdateSolutionSet (p : Program) (sol : Option NSet) (newPath : List Nat) :
    Option NSet :=
  match sol with
  | none => some (nsOf (newPath.filter (fun n => (getNode p n).condition.isSome)))
  | some s => some (s.filter (fun n => n ∈ newPath))

/-- `_PathFinder._FinishNode`: record the completed path ending in `node`
(`path` is the stack below it). -/
def FinishNode (p : Program) (node : Nat) (path : List (Nat × List Nat))
    (st : PFState) : PFState :=
  let thisPath := pathNodesOf path ++ [node]
  { st with one := match st.one with | none => some thisPath | some o => some o,
            sol := UpdateSolutionSet p st.sol thisPath,
            n2f := (node, some [node]) :: st.n2f }

/-- `_PathFinder._UpdateNodeToFinishSet`: intersect the finish sets of the
node's predecessors; when a path onward to finish exists, add the node and
fold the composite path into the solution set. -/
def UpdateNodeToFinishSet (p : Program) (node : Nat) (path : List (Nat × List Nat))
    (st : PFState) : PFState :=
  let toFinish := (getNode p node).incoming.foldl (fun acc inc =>
    match n2fLookup st.n2f inc with
    | some (some s) =>
      match acc with
      | none => some s
      | some t => some (t.filter (fun n => n ∈ s))
    | _ => acc) none
  match toFinish with
  | some s =>
    let s1 := nsInsert node s
    { st with sol := UpdateSolutionSet p st.sol (pathNodesOf path ++ s1),
              n2f := (node, some s1) :: st.n2f }
  | none => { st with n2f := (node, none) :: st.n2f }

/-- The iterative DFS of `_PathFinder._FindNodeBackwardsImpl`. -/
def FNBLoop (p : Program) (finish : Nat) (blocked : NSet) :
    Nat → PFState → Option PFState
  | fuel, st =>
    match st.path with
    | [] => some st
    | (head, rem) :: restPath =>
      match fuel with
      | 0 => none
      | fuel' + 1 =>
        match rem with
        | [] =>
          let st1 := { st with path := restPath }
          if head = finish then
            FNBLoop p finish blocked fuel' (FinishNode p head restPath st1)
          else
            FNBLoop p finish blocked fuel' (UpdateNodeToFinishSet p head restPath st1)
        | next :: rem' =>
          let st1 := { st with path := (head, rem') :: restPath }
          if next = finish then
            (if st.sol = some [] then some st1
             else FNBLoop p finish blocked fuel' (FinishNode p next st1.path st1))
          else if next ∈ blocked then FNBLoop p finish blocked fuel' st1
          else if next ∈ st.seen then FNBLoop p finish blocked fuel' st1
          else
            FNBLoop p finish blocked fuel'
              { st1 with seen := nsInsert next st1.seen,
                         path := (next, (getNode p next).incoming) :: st1.path }

/-- `_PathFinder._FindNodeBackwardsImpl` wrapped with its final answer: the
ordered list of condition-bearing nodes of `_one_path` that lie on all
paths, or `(false, none)` when no path was found. -/
def FindNodeBackwardsImpl (p : Program) (fuel : Nat) (start finish : Nat)
    (blocked : NSet) : Option (Bool × Option (List Nat)) :=
  match FNBLoop p finish blocked fuel ⟨[(start, (getNode p start).incoming)], [], [], none, none⟩ with
  | none => none
  | some st =>
    match st.sol with
    | some s =>
      some (true, some ((st.one.getD []).filter
        (fun n => (getNode p n).condition.isSome && decide (n ∈ s))))
    | none => some (false, none)

def pcLookup (c : List ((Nat × Nat × NSet) × (Bool × Option (List Nat))))
    (q : Nat × Nat × NSet) : Option (Bool × Option (List Nat)) :=
  (c.find? (fun e => e.1 = q)).map (·.2)

/-- `_PathFinder.FindNodeBackwards`: query cache, the `start == finish`
special case (which is not cached), the cheap reachability probe, then the
full search; results are cached in the solver-owned query cache. -/
def FindNodeBackwards (p : Program) (fuel : Nat) (sv : Solver) (start finish : Nat)
    (blocked : NSet) : Option ((Bool × Option (List Nat)) × Solver) :=
  let q := (start, finish, blocked)
  match pcLookup sv.pathCache q with
  | some r => some (r, sv)
  | none =>
    if start = finish then
      some ((true, some (if (getNode p start).condition.isSome then [start] else [])), sv)
    else
      match FindPathToNode p finish blocked fuel [start] [] with
      | none => none
      | some false =>
        some ((false, none), { sv with pathCache := (q, (false, none)) :: sv.pathCache })
      | some true =>
        match FindNodeBackwardsImpl p fuel start finish blocked with
        | none => none
        | some r => some (r, { sv with pathCache := (q, r) :: sv.pathCache })

/-! ## The solver -/

/-- `State.NodesWithAssignments`: all CFG nodes at which some goal's variable
is assigned. -/
def NodesWithAssignments (p : Program) (s : State) : NSet :=
  s.goals.foldl (fun acc g => nsUnion (varNodes (getVar p (getBind p g).varId)) acc) []

/-- The loop of `_GoalsConflict` with the `variables` dictionary as an
association list from variable id to the goal stored for it.  The two
`AssertionError` branches (duplicate goal, duplicate data across distinct
bindings) are modelled as `none`. -/
def goalsConflictLoop (p : Program) : List Nat → List (Nat × Nat) → Option Bool
  | [], _ => some false
  | g :: gs, seenVars =>
    match seenVars.find? (fun e => e.1 = (getBind p g).varId) with
    | some e =>
      if e.2 = g then none
      else if (getBind p e.2).data = (getBind p g).data then none
      else some true
    | none => goalsConflictLoop p gs (((getBind p g).varId, g) :: seenVars)

/-- `_GoalsConflict(goals)`: would two distinct goals need the same variable? -/
def GoalsConflict (p : Program) (goals : List Nat) : Option Bool :=
  goalsConflictLoop p goals []

/-- Outcome of one of the solver's nested loops: a `return True`, the
bulk-removal `return False`, or falling through to the next iteration. -/
inductive TR
  | retTrue
  | retFalse
  | next
deriving DecidableEq

/-- The `for source_set in origin.source_sets` loop of `Solver._FindSolution`
for one goal and one origin with an existing backward path.  Builds the new
state (position, conditions of the path as extra goals, goal replacement
when the origin's node was actually reached), removes trivially fulfilled
goals, applies the bulk-rejection conflict rule, and recurses. -/
def trySourceSets (recurse : State → Solver → Option (Bool × Solver)) (p : Program)
    (fuel : Nat) (s : State) (goal : Nat) (ow : Nat) (path : List Nat) :
    List NSet → Solver → Option (TR × Solver)
  | [], sv => some (.next, sv)
  | ss :: rest, sv =>
    let ng := path.foldl (fun acc n =>
      match (getNode p n).condition with
      | some c => nsInsert c acc
      | none => acc) s.goals
    let w := match path with
      | [] => ow
      | h :: _ => if s.goals.length < ng.length then h else ow
    let st2 : State := if ow = w then ⟨w, nsUnion ss (nsErase ng goal)⟩ else ⟨w, ng⟩
    match RemoveFinishedGoals p fuel st2 with
    | none => none
    | some (st3, removedSet) =>
      match GoalsConflict p (nsInsert goal removedSet) with
      | none => none
      | some true => some (.retFalse, sv)
      | some false =>
        match recurse st3 sv with
        | none => none
        | some (true, sv') => some (.retTrue, sv')
        | some (false, sv') => trySourceSets recurse p fuel s goal ow path rest sv'

/-- The `for origin in goal.origins` loop of `Solver._FindSolution`. -/
def tryOrigins (recurse : State → Solver → Option (Bool × Solver)) (p : Program)
    (fuel : Nat) (s : State) (blocked : NSet) (goal : Nat) :
    List Origin → Solver → Option (TR × Solver)
  | [], sv => some (.next, sv)
  | o :: os, sv =>
    match FindNodeBackwards p fuel sv s.pos o.where_ blocked with
    | none => none
    | some (pr, sv1) =>
      if pr.1 then
        match trySourceSets recurse p fuel s goal o.where_ (pr.2.getD []) o.source_sets sv1 with
        | none => none
        | some (TR.next, sv2) => tryOrigins recurse p fuel s blocked goal os sv2
        | some (r, sv2) => some (r, sv2)
      else tryOrigins recurse p fuel s blocked goal os sv1

/-- The `for goal in state.goals` loop of `Solver._FindSolution`. -/
def tryGoals (recurse : State → Solver → Option (Bool × Solver)) (p : Program)
    (fuel : Nat) (s : State) (blocked : NSet) :
    List Nat → Solver → Option (TR × Solver)
  | [], sv => some (.next, sv)
  | g :: gs, sv =>
    match tryOrigins recurse p fuel s blocked g (getBind p g).origins sv with
    | none => none
    | some (TR.next, sv1) => tryGoals recurse p fuel s blocked gs sv1
    | some (r, sv1) => some (r, sv1)

/-- `Solver._FindSolution`, parameterized over the memoized recursive call:
done check, conflict check, blocked frontier (discarding the current
position), then the goal/origin/source-set exploration. -/
def FindSolutionStep (recurse : State → Solver → Option (Bool × Solver)) (p : Program)
    (fuel : Nat) (sv : Solver) (s : State) : Option (Bool × Solver) :=
  if s.goals = [] then some (true, sv)
  else
    match GoalsConflict p s.goals with
    | none => none
    | some true => some (false, sv)
    | some false =>
      let blocked := nsErase (NodesWithAssignments p s) s.pos
      match tryGoals recurse p fuel s blocked s.goals sv with
      | none => none
      | some (TR.retTrue, sv1) => some (true, sv1)
      | some (_, sv1) => some (false, sv1)

def cacheLookup (c : List (State × Bool)) (s : State) : Option Bool :=
  (c.find? (fun e => e.1 = s)).map (·.2)

/-- `Solver._RecallOrFindSolution`: memo lookup; on a miss, optimistically
install `true` for the state, compute `_FindSolution`, and overwrite the
entry with the computed result. -/
def RecallOrFindSolution (p : Program) : Nat → State → Solver → Option (Bool × Solver)
  | 0, _, _ => none
  | fuel + 1, s, sv =>
    match cacheLookup sv.cache s with
    | some r => some (r, sv)
    | none =>
      let sv1 := { sv with cache := (s, true) :: sv.cache }
      match FindSolutionStep (RecallOrFindSolution p fuel) p fuel sv1 s with
      | none => none
      | some (r, sv2) => some (r, { sv2 with cache := (s, r) :: sv2.cache })

/-- `Solver.Solve(start_attrs, start_node)`. -/
def Solve (p : Program) (fuel : Nat) (sv : Solver) (startAttrs : List Nat)
    (startNode : Nat) : Option (Bool × Solver) :=
  RecallOrFindSolution p fuel ⟨startNode, nsOf startAttrs⟩ sv

/-- `Binding.IsVisible(viewpoint)`: create the solver if needed and solve the
singleton goal set. -/
def IsVisible (p : Program) (fuel : Nat) (b : Nat) (viewpoint : Nat) : Option Bool :=
  (Solve p fuel (CreateSolver p) [b] viewpoint).map (·.1)

/-- The `all(self.program.solver.Solve({b}, self) for b in bindings)` phase of
`CFGNode.HasCombination`, threading the solver and short-circuiting on the
first `False`. -/
def SolveEach (p : Program) (fuel : Nat) : List Nat → Nat → Solver → Option (Bool × Solver)
  | [], _, sv => some (true, sv)
  | b :: bs, node, sv =>
    match Solve p fuel sv [b] node with
    | none => none
    | some (false, sv1) => some (false, sv1)
    | some (true, sv1) => SolveEach p fuel bs node sv1

/-- `CFGNode.HasCombination(bindings)`: each binding separately first, and
only if all of those succeed the full combination. -/
def HasCombination (p : Program) (fuel : Nat) (bindings : List Nat) (node : Nat) :
    Option Bool :=
  match SolveEach p fuel bindings node (CreateSolver p) with
  | none => none
  | some (false, _) => some false
  | some (true, sv1) => (Solve p fuel sv1 bindings node).map (·.1)

/-! ## Concrete scenarios for the solver claims -/

/-- Scenario S6: one node n0, one variable with binding `a` (id 0) whose only
origin is at n0 with the self-supporting source set containing `a` itself. -/
def progS6 : Program :=
  let r0 := NewCFGNode (emptyProgram 100) none
  let rv := NewVariable r0.1
  let ra := AddBinding rv.1 rv.2 7 none
  AddOrigin ra.1 0 0 [0]

/-- Counterexample program for separable-goal soundness: one node n0;
binding 0 (`b`, of variable 0) has no origins at all; binding 1 (`c`, of
variable 1) has an origin at n0 with the two source sets containing `c`
itself and the empty set. -/
def progC1 : Program :=
  let r0 := NewCFGNode (emptyProgram 100) none
  let rvb := NewVariable r0.1
  let rb := AddBinding rvb.1 rvb.2 10 none
  let rvc := NewVariable rb.1
  let rc := AddBinding rvc.1 rvc.2 20 none
  let p1 := AddOrigin rc.1 1 0 [1]
  AddOrigin p1 1 0 []

/-! ## Graph construction as an operation machine -/

/-- The graph-building operations `Program.NewCFGNode`, `CFGNode.ConnectTo`
and `CFGNode.ConnectNew`.  Edge operations on out-of-range node ids are
no-ops so that every operation list is executable. -/
inductive GraphOp
  | newNode (condition : Option Nat)
  | connect (u v : Nat)
  | connectNew (u : Nat) (condition : Option Nat)
deriving DecidableEq

def execGraphOp (p : Program) : GraphOp → Program
  | .newNode c => (NewCFGNode p c).1
  | .connect u v =>
    if u < p.nodes.length ∧ v < p.nodes.length then ConnectTo p u v else p
  | .connectNew u c =>
    if u < p.nodes.length then
      let r := NewCFGNode p c
      ConnectTo r.1 u r.2
    else p

def runGraphOps (ops : List GraphOp) (p : Program) : Program := ops.foldl execGraphOp p

/-! ## Remaining concrete scenarios -/

/-- Out-of-order edge insertion: three nodes, edge n1 -> n2 added before edge
n0 -> n1. -/
def progC6 : Program :=
  runGraphOps [.newNode none, .newNode none, .newNode none, .connect 1 2, .connect 0 1]
    (emptyProgram 0)

/-- A program whose solver has been created (as a query does), with one
variable already holding a binding for payload 5. -/
def progC7 : Program :=
  let r0 := NewCFGNode (emptyProgram 100) none
  let rv := NewVariable r0.1
  let rb := AddBinding rv.1 rv.2 5 none
  CreateSolverP rb.1

/-- A variable filled with 63 distinct payloads (`MAX_VAR_SIZE - 1`), with
`default_data = 1000`. -/
def progC5 : Program :=
  let r0 := NewVariable (emptyProgram 1000)
  (List.range 63).foldl (fun pAcc d => (FindOrAddBinding pAcc 0 d).1) r0.1

/-- A directly constructed program whose single binding has an origin with
zero source sets, which `AddOrigin` can never produce. -/
def progC9 : Program :=
  { nodes := [⟨[], [], [0], [0], none⟩],
    vars := [⟨[0], [(0, [0])]⟩],
    binds := [⟨0, 5, [⟨0, []⟩]⟩],
    default_data := 100, solver := none }

/-- Receiving variable 0 already holds a binding (id 0) for payload 5 with an
origin at node 0; source variable 1 holds an origin-less binding (id 1) for
the same payload. -/
def progC10 : Program :=
  let r0 := NewCFGNode (emptyProgram 100) none
  let r1 := NewCFGNode r0.1 none
  let rv0 := NewVariable r1.1
  let rb0 := AddBinding rv0.1 0 5 (some ([], 0))
  let rv1 := NewVariable rb0.1
  let rb1 := AddBinding rv1.1 1 5 none
  rb1.1

/-! ## Specification predicates -/

/-- Every existing node contains itself in its `reachable_subset`. -/
def SelfReach (p : Program) : Prop :=
  ∀ i, i < p.nodes.length → i ∈ (getNode p i).reachable_subset

/-- The size invariant of a variable: at most `MAX_VAR_SIZE` bindings, and a
variable at the cap already holds a binding for `default_data`. -/
def VarSizeInv (p : Program) (vid : Nat) : Prop :=
  (getVar p vid).bindings.length ≤ MAX_VAR_SIZE ∧
  ((getVar p vid).bindings.length = MAX_VAR_SIZE → payloadSeen p vid p.default_data = true)

/-- The solver's memo table never records `true` for a state whose goals
conflict.  This holds for a fresh solver and is preserved by every solver
run: a conflicting state's optimistic `true` entry is overwritten with the
conflict check's `false` before any recursion can observe it. -/
def CacheSound (p : Program) (sv : Solver) : Prop :=
  ∀ st : State, GoalsConflict p st.goals = some true →
    cacheLookup sv.cache st ≠ some true

/-- Well-formedness of a variable's binding list: all binding ids point into
the program's binding arena. -/
def VarWF (p : Program) (vid : Nat) : Prop :=
  ∀ b ∈ (getVar p vid).bindings, b < p.binds.length

/-- A sequence of `AddBinding` calls (each given as variable id and payload,
with no source sets), as performed by `AddBinding`, `PasteVariable`,
`AssignToNewVariable` and `NewVariable`, all of which funnel through
`_FindOrAddBinding`. -/
def addSeq (l : List (Nat × Nat)) (p : Program) : Program :=
  l.foldl (fun pAcc e => (FindOrAddBinding pAcc e.1 e.2).1) p

/-! ## Helper lemmas -/

theorem mem_nsInsert {x y : Nat} {s : NSet} : x ∈ nsInsert y s ↔ x = y ∨ x ∈ s := by
  induction s with
  | nil => simp [nsInsert]
  | cons z zs ih =>
    by_cases h1 : y < z
    · simp only [nsInsert, if_pos h1, List.mem_cons]
    · by_cases h2 : y = z
      · subst h2
        have he : nsInsert y (y :: zs) = y :: zs := by simp [nsInsert, h1]
        rw [he, List.mem_cons]
        tauto
      · simp only [nsInsert, if_neg h1, if_neg h2, List.mem_cons, ih]
        tauto

theorem mem_nsUnion {x : Nat} {a b : NSet} : x ∈ nsUnion a b ↔ x ∈ a ∨ x ∈ b := by
  induction a with
  | nil => simp [nsUnion]
  | cons z zs ih =>
    simp only [nsUnion, List.foldr_cons] at *
    rw [mem_nsInsert]
    simp [List.mem_cons]
    tauto

theorem mem_nsErase {x y : Nat} {s : NSet} : x ∈ nsErase s y ↔ x ∈ s ∧ x ≠ y := by
  simp [nsErase, List.mem_filter]

theorem mem_nsOf {x : Nat} {l : List Nat} : x ∈ nsOf l ↔ x ∈ l := by
  induction l with
  | nil => simp [nsOf]
  | cons z zs ih =>
    simp only [nsOf, List.foldr_cons] at *
    rw [mem_nsInsert]
    simp [List.mem_cons, ih]

theorem getD_set_self {α : Type} {l : List α} {i : Nat} {x d : α} (h : i < l.length) :
    (l.set i x).getD i d = x := by
  induction l generalizing i with
  | nil => simp at h
  | cons a as ih =>
    cases i with
    | zero => rfl
    | succ j => simpa [List.set, List.getD] using ih (Nat.lt_of_succ_lt_succ h)

theorem getD_set_ne {α : Type} {l : List α} {i j : Nat} {x d : α} (h : i ≠ j) :
    (l.set i x).getD j d = l.getD j d := by
  induction l generalizing i j with
  | nil => simp [List.set]
  | cons a as ih =>
    cases i with
    | zero =>
      cases j with
      | zero => exact absurd rfl h
      | succ k => rfl
    | succ i' =>
      cases j with
      | zero => rfl
      | succ k =>
        simpa [List.set, List.getD] using ih (fun he => h (by rw [he]))

theorem getD_append_left {α : Type} {l : List α} {x d : α} {i : Nat} (h : i < l.length) :
    (l ++ [x]).getD i d = l.getD i d := by
  induction l generalizing i with
  | nil => simp at h
  | cons a as ih =>
    cases i with
    | zero => rfl
    | succ j => simpa [List.getD] using ih (Nat.lt_of_succ_lt_succ h)

theorem getD_append_self {α : Type} {l : List α} {x d : α} :
    (l ++ [x]).getD l.length d = x := by
  induction l with
  | nil => rfl
  | cons a as ih => simp [List.getD]

theorem getD_append_cases {α : Type} (l : List α) (x d : α) (i : Nat) :
    (l ++ [x]).getD i d = l.getD i d ∨ ((l ++ [x]).getD i d = x ∧ l.getD i d = d) := by
  rcases Nat.lt_trichotomy i l.length with h | h | h
  · exact Or.inl (getD_append_left h)
  · subst h
    refine Or.inr ⟨getD_append_self, ?_⟩
    simp [List.getD, List.getElem?_eq_none (Nat.le_refl _)]
  · left
    have h1 : l.length + 1 ≤ i := h
    have : (l ++ [x]).length ≤ i := by simpa using h1
    rw [List.getD_eq_getElem?_getD, List.getD_eq_getElem?_getD,
      List.getElem?_eq_none this, List.getElem?_eq_none (Nat.le_of_succ_le h1)]

theorem getNode_setNode_self {p : Program} {i : Nat} (n : CFGNode)
    (h : i < p.nodes.length) : getNode (setNode p i n) i = n :=
  getD_set_self h

theorem getNode_setNode_ne {p : Program} {i j : Nat} (n : CFGNode) (h : i ≠ j) :
    getNode (setNode p i n) j = getNode p j :=
  getD_set_ne h

theorem length_setNode (p : Program) (i : Nat) (n : CFGNode) :
    (setNode p i n).nodes.length = p.nodes.length := by
  simp [setNode]

theorem getNode_invalidate (p : Program) (i : Nat) :
    getNode (InvalidateSolver p) i = getNode p i := rfl

/-- A fresh node records itself in its own `reachable_subset`, and old nodes
are untouched. -/
theorem selfReach_newNode {p : Program} (h : SelfReach p) (c : Option Nat) :
    SelfReach (NewCFGNode p c).1 := by
  intro i hi
  unfold NewCFGNode InvalidateSolver at hi ⊢
  simp only [List.length_append, List.length_cons, List.length_nil] at hi
  unfold getNode at *
  simp only
  rcases Nat.lt_or_ge i p.nodes.length with hlt | hge
  · rw [getD_append_left hlt]
    exact h i hlt
  · have he : i = p.nodes.length := Nat.le_antisymm (by omega) hge
    subst he
    rw [getD_append_self]
    simp [mem_nsInsert]

theorem selfReach_connectTo {p : Program} (h : SelfReach p) (u v : Nat) :
    SelfReach (ConnectTo p u v) := by
  intro i hi
  simp only [ConnectTo] at hi ⊢
  rw [length_setNode, length_setNode] at hi
  by_cases hv : i = v
  · subst hv
    rw [getNode_setNode_self _ (by rw [length_setNode]; exact hi)]
    simp only
    rw [mem_nsUnion]
    right
    by_cases hu : i = u
    · subst hu
      rw [getNode_setNode_self _ hi]
      exact h i hi
    · rw [getNode_setNode_ne _ (fun he => hu he.symm), getNode_invalidate]
      exact h i hi
  · rw [getNode_setNode_ne _ (fun he => hv he.symm)]
    by_cases hu : i = u
    · subst hu
      rw [getNode_setNode_self _ hi]
      exact h i hi
    · rw [getNode_setNode_ne _ (fun he => hu he.symm), getNode_invalidate]
      exact h i hi

theorem selfReach_exec {p : Program} (h : SelfReach p) (op : GraphOp) :
    SelfReach (execGraphOp p op) := by
  cases op with
  | newNode c => exact selfReach_newNode h c
  | connect u v =>
    simp only [execGraphOp]
    split
    · exact selfReach_connectTo h u v
    · exact h
  | connectNew u c =>
    simp only [execGraphOp]
    split
    · exact selfReach_connectTo (selfReach_newNode h c) _ _
    · exact h

theorem selfReach_run {p : Program} (h : SelfReach p) (ops : List GraphOp) :
    SelfReach (runGraphOps ops p) := by
  induction ops generalizing p with
  | nil => exact h
  | cons op ops ih => exact ih (selfReach_exec h op)

/-! ## Claims -/

/-- Claim C3: in the linear CFG n0 -> n1 -> n2, with variable V holding
binding `a` (id 0) assigned at n0 and binding `b` (id 1) assigned at n1,
`V.Bindings(n2)` is exactly the set containing `b` and `V.Bindings(n0)` is
exactly the set containing `a`: the backward walk stops expanding at the
first node on each path that assigns the variable, so the later assignment
shadows the earlier one. -/
theorem C3_linear_visibility :
    Bindings progS1 0 (some 2) 10 = some [1] ∧
    Bindings progS1 0 (some 0) 10 = some [0] := by
  decide

/-- Claim C2: for variable V whose binding `a` (id 0) has its only origin at
n0 with the single self-supporting source set containing `a` itself,
`a.IsVisible(n0)` terminates (the fuel-indexed run returns an answer) and
that answer is true. -/
theorem C2_cyclic_provenance : IsVisible progS6 10 0 0 = some true := by
  decide

/-- Claim C1 counterexample: in `progC1`, binding 0 is a member of the goal
set consisting of bindings 0 and 1; `Solve` of the singleton goal set with
binding 0 returns false, yet `Solve` of the full goal set returns true (the
search loops back to the in-flight start state, whose optimistically
memoized value is true).  Both calls terminate, so the claimed implication
fails. -/
theorem C1_counterexample :
    (Solve progC1 20 emptySolver [0] 0).map (·.1) = some false ∧
    (Solve progC1 20 emptySolver [0, 1] 0).map (·.1) = some true := by
  decide

/-- Claim C1 (amended): the separable-goal soundness holds at the
`HasCombination` level, where the source checks every binding separately
before the full combination: if one of those individual `Solve` calls
returns false, `HasCombination` returns false. -/
theorem C1_separable_hasCombination (p : Program) (fuel : Nat) (bs : List Nat)
    (node : Nat)
    (h : (SolveEach p fuel bs node (CreateSolver p)).map (·.1) = some false) :
    HasCombination p fuel bs node = some false := by
  unfold HasCombination
  cases hse : SolveEach p fuel bs node (CreateSolver p) with
  | none => rw [hse] at h; simp at h
  | some r =>
    rw [hse] at h
    obtain ⟨b, sv1⟩ := r
    cases b with
    | false => rfl
    | true => simp at h

/-- Witness for the amended claim C1 at a concrete input. -/
theorem C1_amended_witness :
    (SolveEach progC1 20 [0, 1] 0 (CreateSolver progC1)).map (·.1) = some false ∧
    HasCombination progC1 20 [0, 1] 0 = some false :=
  ⟨by decide, C1_separable_hasCombination progC1 20 [0, 1] 0 (by decide)⟩

/-- Claim C6 counterexample: adding the edge n1 -> n2 before the edge
n0 -> n1 leaves a reachable state in which the edge n1 -> n2 exists but
n1's `reachable_subset` (which now contains n0) is not a subset of n2's. -/
theorem C6_counterexample :
    2 ∈ (getNode progC6 1).outgoing ∧
    0 ∈ (getNode progC6 1).reachable_subset ∧
    0 ∉ (getNode progC6 2).reachable_subset := by
  decide

/-- Claim C6 (amended): in every state reachable by `NewCFGNode`,
`ConnectTo` and `ConnectNew`, every node is a member of its own
`reachable_subset`; and immediately after `ConnectTo(u, v)` the source's
`reachable_subset` is a subset of the target's.  The subset relation for an
existing edge can later be broken by adding a new edge into its source,
because reachability is propagated only to the immediate successor. -/
theorem C6_reachability_amended :
    (∀ (ops : List GraphOp) (dd : Nat), SelfReach (runGraphOps ops (emptyProgram dd))) ∧
    (∀ (p : Program) (u v : Nat), u < p.nodes.length → v < p.nodes.length →
      ∀ x, x ∈ (getNode (ConnectTo p u v) u).reachable_subset →
        x ∈ (getNode (ConnectTo p u v) v).reachable_subset) := by
  constructor
  · intro ops dd
    exact selfReach_run (fun i hi => by simp [emptyProgram] at hi) ops
  · intro p u v hu hv x hx
    by_cases huv : u = v
    · subst huv; exact hx
    · simp only [ConnectTo] at hx ⊢
      rw [getNode_setNode_ne _ (fun he => huv he.symm)] at hx
      rw [getNode_setNode_self _ (by rw [length_setNode]; exact hv)]
      exact mem_nsUnion.mpr (Or.inl hx)

/-- Witness for the amended claim C6 at concrete inputs. -/
theorem C6_witness :
    0 ∈ (getNode (runGraphOps [GraphOp.newNode none] (emptyProgram 0)) 0).reachable_subset ∧
    0 ∈ (getNode (ConnectTo progC6 0 2) 2).reachable_subset :=
  ⟨C6_reachability_amended.1 [GraphOp.newNode none] 0 0 (by decide),
   C6_reachability_amended.2 progC6 0 2 (by decide) (by decide) 0 (by decide)⟩

theorem solver_newCFGNode (p : Program) (c : Option Nat) :
    (NewCFGNode p c).1.solver = none := rfl

theorem solver_connectTo (p : Program) (u v : Nat) :
    (ConnectTo p u v).solver = none := rfl

theorem solver_addOrigin (p : Program) (b w : Nat) (ss : List Nat) :
    (AddOrigin p b w ss).solver = none := by
  unfold AddOrigin
  dsimp only
  split
  · rfl
  · rfl

theorem addBinding_origin_solver (p : Program) (vid d : Nat) (a : List Nat × Nat) :
    (AddBinding p vid d (some a)).1.solver = none := by
  obtain ⟨ss, w⟩ := a
  exact solver_addOrigin _ _ _ _

theorem addBinding_none_cases (p : Program) (vid d : Nat) :
    (AddBinding p vid d none).1 = p ∨ (AddBinding p vid d none).1.solver = none := by
  unfold AddBinding FindOrAddBinding
  dsimp only
  split
  · exact Or.inl rfl
  · exact Or.inr rfl

/-- Claim C7 counterexample: a program whose solver exists (it was created by
a query); `AddBinding` with the already-present payload 5 and no source set
returns the existing binding without invalidating the solver, so after the
call the solver handle is not null. -/
theorem C7_counterexample :
    progC7.solver ≠ none ∧ (AddBinding progC7 0 5 none).1.solver ≠ none := by
  decide

/-- Claim C7 (amended): `NewCFGNode`, `ConnectTo`, `AddOrigin`, and any
`AddBinding` that passes a source set and node always leave the solver
handle null; an `AddBinding` without a source set either leaves the whole
program (hence its solver handle) unchanged, when the payload already has a
binding, or nulls the solver handle. -/
theorem C7_cache_invalidation_amended :
    (∀ (p : Program) (c : Option Nat), (NewCFGNode p c).1.solver = none) ∧
    (∀ (p : Program) (u v : Nat), (ConnectTo p u v).solver = none) ∧
    (∀ (p : Program) (b w : Nat) (ss : List Nat), (AddOrigin p b w ss).solver = none) ∧
    (∀ (p : Program) (vid d : Nat) (a : List Nat × Nat),
      (AddBinding p vid d (some a)).1.solver = none) ∧
    (∀ (p : Program) (vid d : Nat),
      (AddBinding p vid d none).1 = p ∨ (AddBinding p vid d none).1.solver = none) :=
  ⟨solver_newCFGNode, solver_connectTo, solver_addOrigin, addBinding_origin_solver,
   addBinding_none_cases⟩

theorem addSources_none (p : Program) (pos g : Nat) (o : Origin)
    (ho : FindOrigin p g pos = some o) (hss : o.source_sets = []) :
    AddSources p pos g = none := by
  unfold AddSources
  rw [ho]
  dsimp only
  rw [hss]
  rfl

theorem rfgFirst_none_of_mem (p : Program) (pos : Nat) (l : List Nat) (g : Nat)
    (hg : g ∈ l) (hn : AddSources p pos g = none) :
    rfgFirst p pos l = none := by
  induction l with
  | nil => cases hg
  | cons a as ih =>
    unfold rfgFirst
    rcases List.mem_cons.mp hg with he | hmem
    · subst he
      rw [hn]
    · rcases ha : AddSources p pos a with _ | ⟨tb, src⟩
      · rfl
      · cases tb
        · exact ih hmem
        · rw [ih hmem]

/-- Claim C9 counterexample: on a state whose goal's origin at the current
position has zero source sets, `RemoveFinishedGoals` does not return
normally; the single-element unpack of the empty source-set collection
raises, modelled as `none`. -/
theorem C9_counterexample : RemoveFinishedGoals progC9 5 ⟨0, [0]⟩ = none := by
  decide

/-- Claim C9 (amended): if some goal of the state has an origin at the
current position with zero source sets, `RemoveFinishedGoals` raises (the
unpacking `source_set, = origin.source_sets` fails on the empty collection)
instead of treating the goal as discharged; such origins can never be
produced by `AddOrigin`, which always adds a source set. -/
theorem C9_zero_source_sets_amended (p : Program) (f : Nat) (s : State) (g : Nat)
    (o : Origin) (hg : g ∈ s.goals) (ho : FindOrigin p g s.pos = some o)
    (hss : o.source_sets = []) :
    RemoveFinishedGoals p f s = none := by
  unfold RemoveFinishedGoals
  rw [rfgFirst_none_of_mem p s.pos s.goals g hg (addSources_none p s.pos g o ho hss)]

/-- Witness for the amended claim C9 at a concrete input. -/
theorem C9_witness : RemoveFinishedGoals progC9 7 ⟨0, [0]⟩ = none :=
  C9_zero_source_sets_amended progC9 7 ⟨0, [0]⟩ 0 ⟨0, []⟩ (by decide) (by decide) rfl

theorem getBind_append_origins (p q : Program) (b : Binding)
    (hq : q.binds = p.binds ++ [b]) (hb : b.origins = []) (i : Nat) :
    (getBind q i).origins = (getBind p i).origins := by
  unfold getBind
  rw [hq]
  rcases getD_append_cases p.binds b emptyBinding i with hc | ⟨hc1, hc2⟩
  · rw [hc]
  · rw [hc1, hc2, hb]
    exact rfl

theorem origins_findOrAdd (p : Program) (vid d i : Nat) :
    (getBind (FindOrAddBinding p vid d).1 i).origins = (getBind p i).origins := by
  unfold FindOrAddBinding
  dsimp only
  split
  · rfl
  · exact getBind_append_origins p _ _ rfl rfl i

theorem pasteBinding_origins (dst w : Nat) (pA : Program) (b : Nat)
    (hb : (getBind pA b).origins = []) (i : Nat) :
    (getBind (pasteBinding dst w pA b) i).origins = (getBind pA i).origins := by
  unfold pasteBinding
  dsimp only
  rw [hb]
  exact origins_findOrAdd pA dst (getBind pA b).data i

theorem pasteList_origins (dst w : Nat) (l : List Nat) (pA : Program)
    (h : ∀ b ∈ l, (getBind pA b).origins = []) (i : Nat) :
    (getBind (l.foldl (pasteBinding dst w) pA) i).origins = (getBind pA i).origins := by
  induction l generalizing pA with
  | nil => rfl
  | cons b bs ih =>
    have hb := h b (List.mem_cons_self b bs)
    have trans : ∀ b2 ∈ bs, (getBind (pasteBinding dst w pA b) b2).origins = [] := by
      intro b2 hb2
      rw [pasteBinding_origins dst w pA b hb b2]
      exact h b2 (List.mem_cons_of_mem b hb2)
    calc (getBind ((b :: bs).foldl (pasteBinding dst w) pA) i).origins
        = (getBind (bs.foldl (pasteBinding dst w) (pasteBinding dst w pA b)) i).origins := rfl
      _ = (getBind (pasteBinding dst w pA b) i).origins := ih (pasteBinding dst w pA b) trans
      _ = (getBind pA i).origins := pasteBinding_origins dst w pA b hb i

/-- Claim C10 counterexample: the source binding (id 1) has no origins, but
its copy in the receiving variable is the pre-existing binding (id 0) for
the same payload, which keeps its existing origin: after `PasteVariable`
the copy's origin list is not empty. -/
theorem C10_counterexample :
    (getBind progC10 1).origins = [] ∧
    (FindOrAddBinding progC10 0 (getBind progC10 1).data).2 = 0 ∧
    (getBind (PasteVariable progC10 0 1 1) 0).origins ≠ [] := by
  decide

/-- Claim C10 (amended): when every binding of the source variable has no
origins, `PasteVariable` adds no origin at all: every binding's origin list
after the call equals its origin list before (and a newly created copy has
no origins, the default).  The copy itself has no origins only when the
receiving variable did not already hold a binding for that payload. -/
theorem C10_paste_amended (p : Program) (dst src w : Nat)
    (h : ∀ b ∈ (getVar p src).bindings, (getBind p b).origins = []) (i : Nat) :
    (getBind (PasteVariable p dst src w) i).origins = (getBind p i).origins :=
  pasteList_origins dst w (getVar p src).bindings p h i

/-- Witness for the amended claim C10 at a concrete input. -/
theorem C10_witness :
    (∀ b ∈ (getVar progC10 1).bindings, (getBind progC10 b).origins = []) ∧
    (getBind (PasteVariable progC10 0 1 1) 0).origins = (getBind progC10 0).origins :=
  ⟨by decide, C10_paste_amended progC10 0 1 1 (by decide) 0⟩

theorem payloadSeen_iff {p : Program} {vid d : Nat} :
    payloadSeen p vid d = true ↔
      ∃ b ∈ (getVar p vid).bindings, (getBind p b).data = d := by
  simp [payloadSeen, List.any_eq_true]

theorem findOrAdd_hit (p : Program) (vid d d1 b : Nat)
    (hd1 : (if MAX_VAR_SIZE - 1 ≤ (getVar p vid).bindings.length ∧
              ¬ payloadSeen p vid d = true then p.default_data else d) = d1)
    (hfind : (getVar p vid).bindings.find?
      (fun b2 => (getBind p b2).data = d1) = some b) :
    FindOrAddBinding p vid d = (p, b) := by
  unfold FindOrAddBinding
  dsimp only
  rw [hd1, hfind]

theorem findOrAdd_miss (p : Program) (vid d d1 : Nat)
    (hd1 : (if MAX_VAR_SIZE - 1 ≤ (getVar p vid).bindings.length ∧
              ¬ payloadSeen p vid d = true then p.default_data else d) = d1)
    (hfind : (getVar p vid).bindings.find?
      (fun b2 => (getBind p b2).data = d1) = none) :
    FindOrAddBinding p vid d =
      (setVar { InvalidateSolver p with binds := p.binds ++ [⟨vid, d1, []⟩] } vid
         { getVar p vid with bindings := (getVar p vid).bindings ++ [p.binds.length] },
       p.binds.length) := by
  unfold FindOrAddBinding
  dsimp only
  rw [hd1, hfind]
  rfl

theorem findOrAdd_cap_default (p : Program) (vid d : Nat)
    (hlen : MAX_VAR_SIZE - 1 ≤ (getVar p vid).bindings.length)
    (hseen : payloadSeen p vid d = false) :
    (getBind (FindOrAddBinding p vid d).1 (FindOrAddBinding p vid d).2).data
      = p.default_data := by
  have hd1 : (if MAX_VAR_SIZE - 1 ≤ (getVar p vid).bindings.length ∧
                ¬ payloadSeen p vid d = true then p.default_data else d)
              = p.default_data := by
    have hC : MAX_VAR_SIZE - 1 ≤ (getVar p vid).bindings.length ∧
        ¬ payloadSeen p vid d = true := ⟨hlen, by simp [hseen]⟩
    rw [if_pos hC]
  cases hfind : (getVar p vid).bindings.find?
      (fun b2 => (getBind p b2).data = p.default_data) with
  | some b =>
    rw [findOrAdd_hit p vid d p.default_data b hd1 hfind]
    have hb := List.find?_some hfind
    simpa using hb
  | none =>
    rw [findOrAdd_miss p vid d p.default_data hd1 hfind]
    show ((p.binds ++ [(⟨vid, p.default_data, []⟩ : Binding)]).getD
        p.binds.length emptyBinding).data = p.default_data
    rw [getD_append_self]

/-- A program change that leaves a variable's entry untouched, does not
shrink the binding arena and preserves existing bindings preserves the size
invariant of that variable. -/
theorem varSizeInv_unchangedVar (p q : Program) (vid2 : Nat)
    (hv2 : getVar q vid2 = getVar p vid2)
    (hdd : q.default_data = p.default_data)
    (hblen : p.binds.length ≤ q.binds.length)
    (hgb : ∀ b2, b2 < p.binds.length → getBind q b2 = getBind p b2)
    (h : VarSizeInv p vid2) (hwf : VarWF p vid2) :
    VarSizeInv q vid2 ∧ VarWF q vid2 := by
  refine ⟨⟨by rw [hv2]; exact h.1, ?_⟩, ?_⟩
  · intro hlen64
    rw [hv2] at hlen64
    rcases payloadSeen_iff.mp (h.2 hlen64) with ⟨b, hbmem, hbdata⟩
    apply payloadSeen_iff.mpr
    refine ⟨b, by rw [hv2]; exact hbmem, ?_⟩
    rw [hdd, hgb b (hwf b hbmem)]
    exact hbdata
  · intro b2 hb2
    rw [hv2] at hb2
    exact Nat.lt_of_lt_of_le (hwf b2 hb2) hblen

theorem varSizeInv_step (p : Program) (vid d vid2 : Nat)
    (h : VarSizeInv p vid2) (hwf : VarWF p vid2) :
    VarSizeInv (FindOrAddBinding p vid d).1 vid2 ∧
    VarWF (FindOrAddBinding p vid d).1 vid2 := by
  have hM : (1 : Nat) ≤ MAX_VAR_SIZE := by decide
  obtain ⟨d1, hd1⟩ : ∃ d1, (if MAX_VAR_SIZE - 1 ≤ (getVar p vid).bindings.length ∧
      ¬ payloadSeen p vid d = true then p.default_data else d) = d1 := ⟨_, rfl⟩
  cases hfind : (getVar p vid).bindings.find? (fun b2 => (getBind p b2).data = d1) with
  | some b =>
    rw [findOrAdd_hit p vid d d1 b hd1 hfind]
    exact ⟨h, hwf⟩
  | none =>
    rw [findOrAdd_miss p vid d d1 hd1 hfind]
    dsimp only
    by_cases hne : vid2 = vid
    · subst hne
      by_cases hvlt : vid2 < p.vars.length
      · have hv : getVar (setVar { InvalidateSolver p with
              binds := p.binds ++ [⟨vid2, d1, []⟩] } vid2
              { getVar p vid2 with bindings := (getVar p vid2).bindings ++ [p.binds.length] })
              vid2
            = { getVar p vid2 with
                bindings := (getVar p vid2).bindings ++ [p.binds.length] } :=
          getD_set_self hvlt
        have hlen63 : (getVar p vid2).bindings.length ≤ 63 := by
          by_contra hgt
          have hcap : (getVar p vid2).bindings.length ≤ 64 := h.1
          have hlen64 : (getVar p vid2).bindings.length = 64 := by omega
          by_cases hs : payloadSeen p vid2 d = true
          · have hnc : ¬ (MAX_VAR_SIZE - 1 ≤ (getVar p vid2).bindings.length ∧
                ¬ payloadSeen p vid2 d = true) := by simp [hs]
            have hd1d : d = d1 := by rwa [if_neg hnc] at hd1
            rcases payloadSeen_iff.mp hs with ⟨b, hbmem, hbdata⟩
            have hnone := List.find?_eq_none.mp hfind b hbmem
            rw [← hd1d] at hnone
            simp [hbdata] at hnone
          · have hge : MAX_VAR_SIZE - 1 ≤ (getVar p vid2).bindings.length := by
              show (63 : Nat) ≤ _
              omega
            have hC : MAX_VAR_SIZE - 1 ≤ (getVar p vid2).bindings.length ∧
                ¬ payloadSeen p vid2 d = true := ⟨hge, by simpa using hs⟩
            have hd1def : p.default_data = d1 := by rwa [if_pos hC] at hd1
            rcases payloadSeen_iff.mp (h.2 hlen64) with ⟨b, hbmem, hbdata⟩
            have hnone := List.find?_eq_none.mp hfind b hbmem
            rw [← hd1def] at hnone
            simp [hbdata] at hnone
        refine ⟨⟨?_, ?_⟩, ?_⟩
        · rw [hv]
          simp only [List.length_append, List.length_cons, List.length_nil]
          show (getVar p vid2).bindings.length + 1 ≤ 64
          omega
        · intro hlen64
          rw [hv] at hlen64
          simp only [List.length_append, List.length_cons, List.length_nil] at hlen64
          have hlen64n : (getVar p vid2).bindings.length + 1 = 64 := hlen64
          by_cases hs : payloadSeen p vid2 d = true
          · exfalso
            have hnc : ¬ (MAX_VAR_SIZE - 1 ≤ (getVar p vid2).bindings.length ∧
                ¬ payloadSeen p vid2 d = true) := by simp [hs]
            have hd1d : d = d1 := by rwa [if_neg hnc] at hd1
            rcases payloadSeen_iff.mp hs with ⟨b, hbmem, hbdata⟩
            have hnone := List.find?_eq_none.mp hfind b hbmem
            rw [← hd1d] at hnone
            simp [hbdata] at hnone
          · have hge : MAX_VAR_SIZE - 1 ≤ (getVar p vid2).bindings.length := by
              show (63 : Nat) ≤ _
              omega
            have hC : MAX_VAR_SIZE - 1 ≤ (getVar p vid2).bindings.length ∧
                ¬ payloadSeen p vid2 d = true := ⟨hge, by simpa using hs⟩
            have hd1def : p.default_data = d1 := by rwa [if_pos hC] at hd1
            apply payloadSeen_iff.mpr
            refine ⟨p.binds.length, ?_, ?_⟩
            · rw [hv]
              exact List.mem_append_right _ (List.mem_singleton.mpr rfl)
            · have hx : getBind (setVar { InvalidateSolver p with
                    binds := p.binds ++ [⟨vid2, d1, []⟩] } vid2
                    { getVar p vid2 with
                      bindings := (getVar p vid2).bindings ++ [p.binds.length] })
                    p.binds.length
                  = ⟨vid2, d1, []⟩ := getD_append_self
              rw [hx]
              show d1 = p.default_data
              exact hd1def.symm
        · intro b2 hb2
          rw [hv] at hb2
          show b2 < (p.binds ++ [(⟨vid2, d1, []⟩ : Binding)]).length
          simp only [List.length_append, List.length_cons, List.length_nil]
          rcases List.mem_append.mp hb2 with hb2a | hb2b
          · have := hwf b2 hb2a
            omega
          · rw [List.mem_singleton.mp hb2b]
            omega
      · refine varSizeInv_unchangedVar p _ vid2 ?_ rfl ?_ ?_ h hwf
        · show (p.vars.set vid2 _).getD vid2 emptyVariable = p.vars.getD vid2 emptyVariable
          rw [List.set_eq_of_length_le (Nat.le_of_not_lt hvlt)]
        · show p.binds.length ≤ (p.binds ++ [(⟨vid2, d1, []⟩ : Binding)]).length
          simp
        · intro b2 hb2
          exact getD_append_left hb2
    · refine varSizeInv_unchangedVar p _ vid2 ?_ rfl ?_ ?_ h hwf
      · exact getD_set_ne (fun he => hne he.symm)
      · show p.binds.length ≤ (p.binds ++ [(⟨vid, d1, []⟩ : Binding)]).length
        simp
      · intro b2 hb2
        exact getD_append_left hb2

/-- The size invariant and well-formedness are preserved by any sequence of
binding additions. -/
theorem varSizeInv_run (l : List (Nat × Nat)) (p : Program) (vid : Nat)
    (h : VarSizeInv p vid ∧ VarWF p vid) :
    VarSizeInv (addSeq l p) vid ∧ VarWF (addSeq l p) vid := by
  induction l generalizing p with
  | nil => exact h
  | cons e es ih =>
    exact ih ((FindOrAddBinding p e.1 e.2).1) (varSizeInv_step p e.1 e.2 vid h.1 h.2)

/-- A variable at the cap with the invariant maps every unseen payload to the
one existing binding whose payload is `default_data`, leaving the program
unchanged. -/
theorem findOrAdd_stable_at_cap (p : Program) (vid d : Nat)
    (hlen : (getVar p vid).bindings.length = MAX_VAR_SIZE)
    (hinv : VarSizeInv p vid) (hseen : payloadSeen p vid d = false) :
    ∃ b0, (getVar p vid).bindings.find?
        (fun b2 => (getBind p b2).data = p.default_data) = some b0 ∧
      FindOrAddBinding p vid d = (p, b0) := by
  have hd1 : (if MAX_VAR_SIZE - 1 ≤ (getVar p vid).bindings.length ∧
      ¬ payloadSeen p vid d = true then p.default_data else d) = p.default_data := by
    have hge : MAX_VAR_SIZE - 1 ≤ (getVar p vid).bindings.length := by
      rw [hlen]
      exact Nat.sub_le _ _
    have hC : MAX_VAR_SIZE - 1 ≤ (getVar p vid).bindings.length ∧
        ¬ payloadSeen p vid d = true := ⟨hge, by simp [hseen]⟩
    rw [if_pos hC]
  rcases payloadSeen_iff.mp (hinv.2 hlen) with ⟨b, hbmem, hbdata⟩
  have hsome : ((getVar p vid).bindings.find?
      (fun b2 => (getBind p b2).data = p.default_data)).isSome :=
    List.find?_isSome.mpr ⟨b, hbmem, by simp [hbdata]⟩
  rcases Option.isSome_iff_exists.mp hsome with ⟨b0, hb0⟩
  exact ⟨b0, hb0, findOrAdd_hit p vid d p.default_data b0 hd1 hb0⟩

/-- Claim C5: a variable already holding `MAX_VAR_SIZE - 1` payloads maps any
unseen payload to a binding whose payload is the program's `default_data`;
the binding list never exceeds `MAX_VAR_SIZE` along any sequence of binding
additions; and at the cap every unseen payload returns the same
`default_data` binding without changing the program. -/
theorem C5_overflow_collapse :
    (∀ (p : Program) (vid d : Nat),
      MAX_VAR_SIZE - 1 ≤ (getVar p vid).bindings.length →
      payloadSeen p vid d = false →
      (getBind (FindOrAddBinding p vid d).1 (FindOrAddBinding p vid d).2).data
        = p.default_data) ∧
    (∀ (l : List (Nat × Nat)) (p : Program) (vid : Nat),
      VarSizeInv p vid ∧ VarWF p vid →
      (getVar (addSeq l p) vid).bindings.length ≤ MAX_VAR_SIZE) ∧
    (∀ (p : Program) (vid d : Nat),
      (getVar p vid).bindings.length = MAX_VAR_SIZE → VarSizeInv p vid →
      payloadSeen p vid d = false →
      ∃ b0, (getVar p vid).bindings.find?
          (fun b2 => (getBind p b2).data = p.default_data) = some b0 ∧
        FindOrAddBinding p vid d = (p, b0)) :=
  ⟨findOrAdd_cap_default,
   fun l p vid h => (varSizeInv_run l p vid h).1.1,
   findOrAdd_stable_at_cap⟩

set_option maxRecDepth 4000 in
/-- Witness for claim C5 at a concrete input: a variable with 63 distinct
payloads collapses the 64th distinct payload onto `default_data`, and two
further additions keep the binding list within the cap. -/
theorem C5_witness :
    (MAX_VAR_SIZE - 1 ≤ (getVar progC5 0).bindings.length ∧
     payloadSeen progC5 0 500 = false) ∧
    (getBind (FindOrAddBinding progC5 0 500).1 (FindOrAddBinding progC5 0 500).2).data
      = progC5.default_data ∧
    (getVar (addSeq [(0, 500), (0, 501)] progC5) 0).bindings.length ≤ MAX_VAR_SIZE :=
  ⟨⟨by decide, by decide⟩,
   C5_overflow_collapse.1 progC5 0 500 (by decide) (by decide),
   C5_overflow_collapse.2.1 [(0, 500), (0, 501)] progC5 0
     ⟨⟨by decide, by decide⟩, by unfold VarWF; decide⟩⟩

/-- Characterization of the first pass of `RemoveFinishedGoals`: on success,
every goal of the input list either is not trivially fulfilled or has been
scheduled for removal. -/
theorem rfgFirst_spec (p : Program) (pos : Nat) (l : List Nat) (ng rm : NSet)
    (hf : rfgFirst p pos l = some (ng, rm)) :
    ∀ g ∈ l, (∃ j, AddSources p pos g = some (false, j)) ∨
      (∃ src, AddSources p pos g = some (true, src) ∧ g ∈ rm) := by
  induction l generalizing ng rm with
  | nil => intro g hg; cases hg
  | cons a as ih =>
    intro g hg
    unfold rfgFirst at hf
    rcases ha : AddSources p pos a with _ | ⟨tb, src⟩ <;> rw [ha] at hf
    · simp at hf
    · cases tb with
      | false =>
        rcases List.mem_cons.mp hg with he | hmem
        · subst he
          exact Or.inl ⟨src, ha⟩
        · exact ih ng rm hf g hmem
      | true =>
        cases hrest : rfgFirst p pos as with
        | none => rw [hrest] at hf; simp at hf
        | some pr =>
          rw [hrest] at hf
          obtain ⟨ng2, rm2⟩ := pr
          have hrm : nsInsert a rm2 = rm := congrArg Prod.snd (Option.some.inj hf)
          rcases List.mem_cons.mp hg with he | hmem
          · subst he
            exact Or.inr ⟨src, ha, by rw [← hrm]; exact mem_nsInsert.mpr (Or.inl rfl)⟩
          · rcases ih ng2 rm2 hrest g hmem with hfa | ⟨s2, hs2, hgm⟩
            · exact Or.inl hfa
            · exact Or.inr ⟨s2, hs2, by rw [← hrm]; exact mem_nsInsert.mpr (Or.inr hgm)⟩

/-- Invariant of the cascade loop of `RemoveFinishedGoals`: every goal of the
current set is scheduled for removal or is not trivially fulfilled. -/
theorem rfgLoop_inv (p : Program) (pos : Nat) (fuel : Nat) (ng seen cur rm curF rmF : NSet)
    (hl : rfgLoop p pos fuel ng seen cur rm = some (curF, rmF))
    (hinv : ∀ g ∈ cur, g ∈ rm ∨ ∃ j, AddSources p pos g = some (false, j)) :
    ∀ g ∈ curF, g ∈ rmF ∨ ∃ j, AddSources p pos g = some (false, j) := by
  induction fuel generalizing ng seen cur rm with
  | zero =>
    cases ng with
    | nil =>
      unfold rfgLoop at hl
      dsimp only at hl
      have hp := Option.some.inj hl
      injection hp with h1 h2
      subst h1
      subst h2
      exact hinv
    | cons g ng2 =>
      unfold rfgLoop at hl
      simp at hl
  | succ f ihf =>
    cases ng with
    | nil =>
      unfold rfgLoop at hl
      dsimp only at hl
      have hp := Option.some.inj hl
      injection hp with h1 h2
      subst h1
      subst h2
      exact hinv
    | cons g ng2 =>
      unfold rfgLoop at hl
      dsimp only at hl
      by_cases hseen : g ∈ seen
      · rw [if_pos hseen] at hl
        exact ihf ng2 seen cur rm hl hinv
      · rw [if_neg hseen] at hl
        rcases ha : AddSources p pos g with _ | ⟨tb, src⟩ <;> rw [ha] at hl
        · simp at hl
        · cases tb with
          | false =>
            refine ihf ng2 (nsInsert g seen) (nsInsert g cur) rm hl ?_
            intro g2 hg2
            rcases mem_nsInsert.mp hg2 with he | hmem
            · subst he
              exact Or.inr ⟨src, ha⟩
            · exact hinv g2 hmem
          | true =>
            refine ihf (nsUnion src ng2) (nsInsert g seen) cur (nsInsert g rm) hl ?_
            intro g2 hg2
            rcases hinv g2 hg2 with hin | hfalse
            · exact Or.inl (mem_nsInsert.mpr (Or.inr hin))
            · exact Or.inr hfalse

theorem mem_foldl_nsErase (rm cur : NSet) (x : Nat) :
    x ∈ rm.foldl nsErase cur ↔ x ∈ cur ∧ x ∉ rm := by
  induction rm generalizing cur with
  | nil => simp
  | cons r rs ih =>
    rw [List.foldl_cons, ih, mem_nsErase]
    constructor
    · rintro ⟨⟨hc, hne⟩, hns⟩
      refine ⟨hc, ?_⟩
      intro hmem
      rcases List.mem_cons.mp hmem with he | hm
      · exact hne he
      · exact hns hm
    · rintro ⟨hc, hnm⟩
      exact ⟨⟨hc, fun he => hnm (he ▸ List.mem_cons_self r rs)⟩,
             fun hm => hnm (List.mem_cons_of_mem r hm)⟩

theorem rfgFirst_all_false (p : Program) (pos : Nat) (l : List Nat)
    (h : ∀ g ∈ l, ∃ j, AddSources p pos g = some (false, j)) :
    rfgFirst p pos l = some ([], []) := by
  induction l with
  | nil => rfl
  | cons a as ih =>
    obtain ⟨j, hj⟩ := h a (List.mem_cons_self a as)
    unfold rfgFirst
    rw [hj]
    exact ih (fun g hg => h g (List.mem_cons_of_mem a hg))

/-- Claim C8: when `RemoveFinishedGoals` returns normally, every goal left in
the state is not trivially fulfilled, so calling it again returns the same
state (same position and same goal set) and removes nothing. -/
theorem C8_rfg_idempotent (p : Program) (f f2 : Nat) (s s2 : State) (rem : NSet)
    (h : RemoveFinishedGoals p f s = some (s2, rem)) :
    RemoveFinishedGoals p f2 s2 = some (s2, []) := by
  unfold RemoveFinishedGoals at h
  cases hf : rfgFirst p s.pos s.goals with
  | none => rw [hf] at h; simp at h
  | some pr =>
    rw [hf] at h
    obtain ⟨ng0, rm0⟩ := pr
    dsimp only at h
    cases hl : rfgLoop p s.pos f ng0 s.goals s.goals rm0 with
    | none => rw [hl] at h; simp at h
    | some pr2 =>
      rw [hl] at h
      obtain ⟨cur, rm⟩ := pr2
      dsimp only at h
      have hpair := Option.some.inj h
      have hst : (⟨s.pos, rm.foldl nsErase cur⟩ : State) = s2 :=
        congrArg Prod.fst hpair
      have hinv0 : ∀ g ∈ s.goals,
          g ∈ rm0 ∨ ∃ j, AddSources p s.pos g = some (false, j) := by
        intro g hg
        rcases rfgFirst_spec p s.pos s.goals ng0 rm0 hf g hg with hb | ⟨src, hsrc, hgm⟩
        · exact Or.inr hb
        · exact Or.inl hgm
      have hinvF := rfgLoop_inv p s.pos f ng0 s.goals s.goals rm0 cur rm hl hinv0
      have hpos : s2.pos = s.pos := by rw [← hst]
      have hall : ∀ g ∈ s2.goals, ∃ j, AddSources p s2.pos g = some (false, j) := by
        intro g hg
        rw [← hst] at hg
        have hg2 := (mem_foldl_nsErase rm cur g).mp hg
        rcases hinvF g hg2.1 with hin | hfalse
        · exact absurd hin hg2.2
        · rw [hpos]
          exact hfalse
      have hloop : rfgLoop p s2.pos f2 [] s2.goals s2.goals [] = some (s2.goals, []) := by
        cases f2 <;> rfl
      unfold RemoveFinishedGoals
      rw [rfgFirst_all_false p s2.pos s2.goals hall]
      dsimp only
      rw [hloop]
      rfl

/-- Witness for claim C8 at a concrete input: the self-supporting goal of
`progS6` is removed by the first call and the second call changes nothing. -/
theorem C8_witness :
    RemoveFinishedGoals progS6 5 ⟨0, [0]⟩ = some (⟨0, []⟩, [0]) ∧
    RemoveFinishedGoals progS6 5 ⟨0, []⟩ = some (⟨0, []⟩, []) :=
  ⟨by decide, C8_rfg_idempotent progS6 5 5 ⟨0, [0]⟩ ⟨0, []⟩ [0] (by decide)⟩

theorem cacheLookup_cons (k : State) (v : Bool) (c : List (State × Bool)) (st : State) :
    cacheLookup ((k, v) :: c) st = if k = st then some v else cacheLookup c st := by
  unfold cacheLookup
  by_cases he : k = st
  · rw [List.find?_cons_of_pos _ (by simp [he]), if_pos he]
    rfl
  · rw [List.find?_cons_of_neg _ (by simp [he]), if_neg he]

theorem cacheSound_congr (p : Program) (sv sv2 : Solver) (he : sv2.cache = sv.cache)
    (hs : CacheSound p sv) : CacheSound p sv2 := by
  intro st hc
  show cacheLookup sv2.cache st ≠ some true
  rw [he]
  exact hs st hc

/-- `FindNodeBackwards` touches only the path-finder cache, never the solver
memo table. -/
theorem fnb_cache (p : Program) (fuel : Nat) (sv : Solver) (a b : Nat) (blk : NSet)
    (r : (Bool × Option (List Nat)) × Solver)
    (h : FindNodeBackwards p fuel sv a b blk = some r) : r.2.cache = sv.cache := by
  unfold FindNodeBackwards at h
  dsimp only at h
  cases hc : pcLookup sv.pathCache (a, b, blk) with
  | some r2 =>
    rw [hc] at h
    dsimp only at h
    cases Option.some.inj h
    rfl
  | none =>
    rw [hc] at h
    dsimp only at h
    by_cases hab : a = b
    · rw [if_pos hab] at h
      cases Option.some.inj h
      rfl
    · rw [if_neg hab] at h
      cases hp : FindPathToNode p b blk fuel [a] [] with
      | none => rw [hp] at h; simp at h
      | some pb =>
        rw [hp] at h
        cases pb with
        | false =>
          dsimp only at h
          cases Option.some.inj h
          rfl
        | true =>
          dsimp only at h
          cases hi : FindNodeBackwardsImpl p fuel a b blk with
          | none => rw [hi] at h; simp at h
          | some r3 =>
            rw [hi] at h
            dsimp only at h
            cases Option.some.inj h
            rfl

/-- A conflicting state is rejected by `_FindSolution` before any recursion,
leaving the solver untouched. -/
theorem step_conflict (recurse : State → Solver → Option (Bool × Solver)) (p : Program)
    (fuel : Nat) (sv : Solver) (s : State)
    (hc : GoalsConflict p s.goals = some true) :
    FindSolutionStep recurse p fuel sv s = some (false, sv) := by
  unfold FindSolutionStep
  have hne : ¬ (s.goals = []) := by
    intro he
    rw [he] at hc
    simp [GoalsConflict, goalsConflictLoop] at hc
  rw [if_neg hne, hc]

theorem trySourceSets_sound (recurse : State → Solver → Option (Bool × Solver))
    (p : Program) (fuel : Nat) (s : State) (goal ow : Nat) (path : List Nat)
    (hrec : ∀ st sv2, CacheSound p sv2 → ∀ r2, recurse st sv2 = some r2 →
      CacheSound p r2.2)
    (l : List NSet) (sv : Solver) (hs : CacheSound p sv)
    (r : TR × Solver) (h : trySourceSets recurse p fuel s goal ow path l sv = some r) :
    CacheSound p r.2 := by
  induction l generalizing sv with
  | nil =>
    unfold trySourceSets at h
    cases Option.some.inj h
    exact hs
  | cons ss rest ih =>
    unfold trySourceSets at h
    dsimp only at h
    split at h
    · simp at h
    · split at h
      · simp at h
      · cases Option.some.inj h
        exact hs
      · split at h
        · simp at h
        next sv2 heq =>
          cases Option.some.inj h
          exact hrec _ _ hs _ heq
        next sv2 heq =>
          exact ih sv2 (hrec _ _ hs _ heq) h

theorem tryOrigins_sound (recurse : State → Solver → Option (Bool × Solver))
    (p : Program) (fuel : Nat) (s : State) (blocked : NSet) (goal : Nat)
    (hrec : ∀ st sv2, CacheSound p sv2 → ∀ r2, recurse st sv2 = some r2 →
      CacheSound p r2.2)
    (l : List Origin) (sv : Solver) (hs : CacheSound p sv)
    (r : TR × Solver) (h : tryOrigins recurse p fuel s blocked goal l sv = some r) :
    CacheSound p r.2 := by
  induction l generalizing sv with
  | nil =>
    unfold tryOrigins at h
    cases Option.some.inj h
    exact hs
  | cons o os ih =>
    unfold tryOrigins at h
    cases hf : FindNodeBackwards p fuel sv s.pos o.where_ blocked with
    | none => rw [hf] at h; simp at h
    | some pr =>
      rw [hf] at h
      obtain ⟨pres, sv1⟩ := pr
      have hs1 : CacheSound p sv1 :=
        cacheSound_congr p sv sv1 (fnb_cache p fuel sv s.pos o.where_ blocked _ hf) hs
      dsimp only at h
      by_cases hex : pres.1 = true
      · rw [if_pos hex] at h
        cases hts : trySourceSets recurse p fuel s goal o.where_ (pres.2.getD [])
            o.source_sets sv1 with
        | none => rw [hts] at h; simp at h
        | some pr2 =>
          rw [hts] at h
          obtain ⟨tr2, sv2⟩ := pr2
          have hs2 : CacheSound p sv2 :=
            trySourceSets_sound recurse p fuel s goal o.where_ (pres.2.getD [])
              hrec o.source_sets sv1 hs1 (tr2, sv2) hts
          cases tr2 with
          | retTrue => cases Option.some.inj h; exact hs2
          | retFalse => cases Option.some.inj h; exact hs2
          | next => exact ih sv2 hs2 h
      · rw [if_neg hex] at h
        exact ih sv1 hs1 h

theorem tryGoals_sound (recurse : State → Solver → Option (Bool × Solver))
    (p : Program) (fuel : Nat) (s : State) (blocked : NSet)
    (hrec : ∀ st sv2, CacheSound p sv2 → ∀ r2, recurse st sv2 = some r2 →
      CacheSound p r2.2)
    (l : List Nat) (sv : Solver) (hs : CacheSound p sv)
    (r : TR × Solver) (h : tryGoals recurse p fuel s blocked l sv = some r) :
    CacheSound p r.2 := by
  induction l generalizing sv with
  | nil =>
    unfold tryGoals at h
    cases Option.some.inj h
    exact hs
  | cons g gs ih =>
    unfold tryGoals at h
    cases hto : tryOrigins recurse p fuel s blocked g (getBind p g).origins sv with
    | none => rw [hto] at h; simp at h
    | some pr =>
      rw [hto] at h
      obtain ⟨tr1, sv1⟩ := pr
      have hs1 : CacheSound p sv1 :=
        tryOrigins_sound recurse p fuel s blocked g hrec _ sv hs (tr1, sv1) hto
      cases tr1 with
      | retTrue => cases Option.some.inj h; exact hs1
      | retFalse => cases Option.some.inj h; exact hs1
      | next => exact ih sv1 hs1 h

theorem findSolutionStep_sound (recurse : State → Solver → Option (Bool × Solver))
    (p : Program) (fuel : Nat) (sv : Solver) (s : State)
    (hrec : ∀ st sv2, CacheSound p sv2 → ∀ r2, recurse st sv2 = some r2 →
      CacheSound p r2.2)
    (hs : CacheSound p sv) (r : Bool × Solver)
    (h : FindSolutionStep recurse p fuel sv s = some r) :
    CacheSound p r.2 := by
  unfold FindSolutionStep at h
  by_cases hgo : s.goals = []
  · rw [if_pos hgo] at h
    cases Option.some.inj h
    exact hs
  · rw [if_neg hgo] at h
    cases hgc : GoalsConflict p s.goals with
    | none => rw [hgc] at h; simp at h
    | some cb =>
      rw [hgc] at h
      cases cb with
      | true =>
        dsimp only at h
        cases Option.some.inj h
        exact hs
      | false =>
        dsimp only at h
        cases htg : tryGoals recurse p fuel s (nsErase (NodesWithAssignments p s) s.pos)
            s.goals sv with
        | none => rw [htg] at h; simp at h
        | some pr =>
          rw [htg] at h
          obtain ⟨tr1, sv1⟩ := pr
          have hs1 : CacheSound p sv1 :=
            tryGoals_sound recurse p fuel s _ hrec s.goals sv hs (tr1, sv1) htg
          cases tr1 with
          | retTrue => cases Option.some.inj h; exact hs1
          | retFalse => cases Option.some.inj h; exact hs1
          | next => cases Option.some.inj h; exact hs1

/-- The memoized solver preserves cache soundness and answers `false` on any
conflicting state. -/
theorem recallOrFind_sound (p : Program) :
    ∀ (fuel : Nat) (s : State) (sv : Solver), CacheSound p sv →
      ∀ r, RecallOrFindSolution p fuel s sv = some r →
        CacheSound p r.2 ∧ (GoalsConflict p s.goals = some true → r.1 = false) := by
  intro fuel
  induction fuel with
  | zero =>
    intro s sv hs r h
    simp [RecallOrFindSolution] at h
  | succ f ih =>
    intro s sv hs r h
    unfold RecallOrFindSolution at h
    cases hcl : cacheLookup sv.cache s with
    | some b =>
      rw [hcl] at h
      dsimp only at h
      cases Option.some.inj h
      refine ⟨hs, ?_⟩
      intro hconf
      have hne := hs s hconf
      rw [hcl] at hne
      cases b with
      | false => rfl
      | true => exact absurd rfl hne
    | none =>
      rw [hcl] at h
      dsimp only at h
      by_cases hconf : GoalsConflict p s.goals = some true
      · rw [step_conflict (RecallOrFindSolution p f) p f
          { sv with cache := (s, true) :: sv.cache } s hconf] at h
        dsimp only at h
        cases Option.some.inj h
        refine ⟨?_, fun _ => rfl⟩
        intro st hc2
        show cacheLookup ((s, false) :: (s, true) :: sv.cache) st ≠ some true
        rw [cacheLookup_cons, cacheLookup_cons]
        by_cases hse : s = st
        · rw [if_pos hse]
          simp
        · rw [if_neg hse, if_neg hse]
          exact hs st hc2
      · have hs1 : CacheSound p { sv with cache := (s, true) :: sv.cache } := by
          intro st hc2
          show cacheLookup ((s, true) :: sv.cache) st ≠ some true
          rw [cacheLookup_cons]
          by_cases hse : s = st
          · subst hse
            exact absurd hc2 hconf
          · rw [if_neg hse]
            exact hs st hc2
        cases hstep : FindSolutionStep (RecallOrFindSolution p f) p f
            { sv with cache := (s, true) :: sv.cache } s with
        | none => rw [hstep] at h; simp at h
        | some r2 =>
          rw [hstep] at h
          obtain ⟨rb, sv2⟩ := r2
          dsimp only at h
          cases Option.some.inj h
          have hrec : ∀ st sv3, CacheSound p sv3 → ∀ r3,
              RecallOrFindSolution p f st sv3 = some r3 → CacheSound p r3.2 :=
            fun st sv3 hcs r3 hr3 => (ih st sv3 hcs r3 hr3).1
          have hs2 : CacheSound p sv2 :=
            findSolutionStep_sound (RecallOrFindSolution p f) p f
              { sv with cache := (s, true) :: sv.cache } s hrec hs1 (rb, sv2) hstep
          refine ⟨?_, fun hcf => absurd hcf hconf⟩
          intro st hc2
          show cacheLookup ((s, rb) :: sv2.cache) st ≠ some true
          rw [cacheLookup_cons]
          by_cases hse : s = st
          · subst hse
            exact absurd hc2 hconf
          · rw [if_neg hse]
            exact hs2 st hc2

theorem solveEach_sound (p : Program) (fuel : Nat) (l : List Nat) (node : Nat)
    (sv : Solver) (hs : CacheSound p sv) (r : Bool × Solver)
    (h : SolveEach p fuel l node sv = some r) : CacheSound p r.2 := by
  induction l generalizing sv with
  | nil =>
    unfold SolveEach at h
    cases Option.some.inj h
    exact hs
  | cons b bs ih =>
    unfold SolveEach at h
    cases hsv : Solve p fuel sv [b] node with
    | none => rw [hsv] at h; simp at h
    | some rp =>
      rw [hsv] at h
      obtain ⟨bb, sv1⟩ := rp
      have hs1 : CacheSound p sv1 :=
        (recallOrFind_sound p fuel ⟨node, nsOf [b]⟩ sv hs (bb, sv1) hsv).1
      cases bb with
      | false =>
        dsimp only at h
        cases Option.some.inj h
        exact hs1
      | true =>
        dsimp only at h
        exact ih sv1 hs1 h

theorem nsOf_pair_lt {x y : Nat} (h : x < y) : nsOf [x, y] = [x, y] := by
  show nsInsert x (nsInsert y []) = [x, y]
  rw [show nsInsert y [] = [y] from rfl]
  unfold nsInsert
  rw [if_pos h]

theorem nsOf_pair_gt {x y : Nat} (h : y < x) : nsOf [x, y] = [y, x] := by
  show nsInsert x (nsInsert y []) = [y, x]
  rw [show nsInsert y [] = [y] from rfl]
  unfold nsInsert
  rw [if_neg (Nat.not_lt.mpr (Nat.le_of_lt h)), if_neg (Nat.ne_of_gt h)]
  rfl

/-- Two distinct bindings of the same variable with distinct payloads are a
goal conflict. -/
theorem goalsConflict_pair (p : Program) (x y : Nat) (hne : x ≠ y)
    (hvar : (getBind p x).varId = (getBind p y).varId)
    (hdata : (getBind p x).data ≠ (getBind p y).data) :
    GoalsConflict p [x, y] = some true := by
  have h1 : GoalsConflict p [x, y]
      = goalsConflictLoop p [y] [((getBind p x).varId, x)] := rfl
  rw [h1]
  unfold goalsConflictLoop
  rw [List.find?_cons_of_pos _ (by simp [hvar])]
  dsimp only
  rw [if_neg hne, if_neg hdata]

/-- Claim C4: for a CFG node and two distinct bindings of the same variable
with distinct payloads, whenever `HasCombination([b1, b2])` returns an
answer, it is false: either one of the individual `Solve` calls fails, or
the combined goal set is rejected by the conflict check (and the solver
cache, when sound, cannot have recorded `true` for the conflicting state). -/
theorem C4_variable_conflict (p : Program) (fuel node b1 b2 : Nat)
    (hne : b1 ≠ b2)
    (hvar : (getBind p b1).varId = (getBind p b2).varId)
    (hdata : (getBind p b1).data ≠ (getBind p b2).data)
    (hsound : CacheSound p (CreateSolver p))
    (r : Bool) (h : HasCombination p fuel [b1, b2] node = some r) :
    r = false := by
  have hconf : GoalsConflict p (nsOf [b1, b2]) = some true := by
    rcases Nat.lt_or_ge b1 b2 with hlt | hge
    · rw [nsOf_pair_lt hlt]
      exact goalsConflict_pair p b1 b2 hne hvar hdata
    · have hgt : b2 < b1 := Nat.lt_of_le_of_ne hge (fun he => hne he.symm)
      rw [nsOf_pair_gt hgt]
      exact goalsConflict_pair p b2 b1 (fun he => hne he.symm) hvar.symm
        (fun he => hdata he.symm)
  unfold HasCombination at h
  cases hse : SolveEach p fuel [b1, b2] node (CreateSolver p) with
  | none => rw [hse] at h; simp at h
  | some rp =>
    rw [hse] at h
    obtain ⟨bb, sv1⟩ := rp
    have hs1 : CacheSound p sv1 :=
      solveEach_sound p fuel [b1, b2] node (CreateSolver p) hsound (bb, sv1) hse
    cases bb with
    | false =>
      dsimp only at h
      cases Option.some.inj h
      rfl
    | true =>
      dsimp only at h
      cases hsv2 : Solve p fuel sv1 [b1, b2] node with
      | none => rw [hsv2] at h; simp at h
      | some rp2 =>
        rw [hsv2] at h
        have hcs := recallOrFind_sound p fuel ⟨node, nsOf [b1, b2]⟩ sv1 hs1 rp2 hsv2
        have hr1 : rp2.1 = false := hcs.2 hconf
        have hinj : rp2.1 = r := Option.some.inj h
        rw [← hinj]
        exact hr1

/-- Witness for claim C4 at a concrete input: the two bindings of variable V
in the linear scenario conflict at node n0. -/
theorem C4_witness :
    ((0 : Nat) ≠ 1 ∧ HasCombination progS1 20 [0, 1] 0 = some false) ∧ false = false :=
  ⟨⟨by decide, by decide⟩,
   C4_variable_conflict progS1 20 0 0 1 (by decide) (by decide) (by decide)
     (by
       intro st hc
       show cacheLookup emptySolver.cache st ≠ some true
       simp [cacheLookup, emptySolver])
     false (by decide)⟩

end CfgModel
